import Mathlib

/-!
Verification model of the choco.js routing and middleware-pipeline engine.

The definitions below are a shallow embedding of the TypeScript sources:
`src/pipeline.ts` (Pipeline), `src/router.ts` (Router), `src/utils`
(`matchPath` / `extractParams`), and the built-in CORS and rate-limit
middlewares.  JavaScript strings are modelled as `List Char` so that every
definition is executable by the kernel; JavaScript objects used as string
maps are modelled as insertion-ordered association lists with JS assignment
semantics (`recordSet`).  Route patterns that the source supplies as
precompiled regular expressions are modelled by the token class
(literal / one-segment capture / greedy wildcard) that the string-pattern
compiler itself produces; middleware handlers are modelled as functions
from the context to an action that either returns without calling the
continuation, throws, or calls the continuation once and then applies a
pure post-transformation (every middleware in the repository has this
shape).  Asynchronous execution is sequential in the source per request,
so it is modelled by direct state passing.
-/

namespace Choco

/-- JavaScript strings, modelled as lists of characters. -/
abbrev Str := List Char

/-! ### JS object / string primitives -/

/-- JS object property assignment `h[k] = v` on a string-keyed record:
replaces the value in place if the key exists, else appends (JS objects
preserve first-insertion key order). -/
def recordSet (h : List (Str × α)) (k : Str) (v : α) : List (Str × α) :=
  match h with
  | [] => [(k, v)]
  | (k', v') :: rest =>
    if k' = k then (k', v) :: rest else (k', v') :: recordSet rest k v

/-- JS object property read `h[k]`, `none` when absent (undefined). -/
def recordGet (h : List (Str × α)) (k : Str) : Option α :=
  match h with
  | [] => none
  | (k', v') :: rest => if k' = k then some v' else recordGet rest k

/-- JS `String.prototype.replace` with a plain-string pattern: replaces the
first occurrence only (used by the router as `.replace("//", "/")`). -/
def replaceFirst (pat rep : Str) : Str → Str
  | [] => []
  | c :: rest =>
    if pat.isPrefixOf (c :: rest) then rep ++ (c :: rest).drop pat.length
    else c :: replaceFirst pat rep rest

/-- Fuel-driven worker for `replaceAll`; the fuel starts at the string
length, which suffices because each step consumes at least one character
when the pattern is nonempty (all uses have pattern `"//"`). -/
def replaceAllAux (pat rep : Str) : Nat → Str → Str
  | _, [] => []
  | 0, s => s
  | n + 1, c :: rest =>
    if pat.isPrefixOf (c :: rest) then
      rep ++ replaceAllAux pat rep n ((c :: rest).drop pat.length)
    else c :: replaceAllAux pat rep n rest

/-- JS `String.prototype.replaceAll` with a nonempty plain-string pattern:
leftmost, non-overlapping. -/
def replaceAll (pat rep s : Str) : Str :=
  replaceAllAux pat rep s.length s

/-- Worker for `collapseSlashes`; the flag records whether the previous
kept character was a slash. -/
def collapseAux : Bool → Str → Str
  | _, [] => []
  | prevSlash, c :: rest =>
    if c = '/' then
      if prevSlash then collapseAux true rest else '/' :: collapseAux true rest
    else c :: collapseAux false rest

/-- The regex replacement used by the path matcher,
replacing every run of two or more slashes by a single slash. -/
def collapseSlashes (s : Str) : Str := collapseAux false s

/-- The regex replacement dropping a single trailing slash. -/
def stripTrailingSlash (s : Str) : Str :=
  if s.getLast? = some '/' then s.dropLast else s

/-- `normalizePath` as defined inside `matchPath`: collapse repeated
slashes, strip a trailing slash, and coerce the empty result to "/". -/
def normalizePathMatch (s : Str) : Str :=
  let n := stripTrailingSlash (collapseSlashes s)
  if n = [] then "/".data else n

/-- `normalizePath` as defined inside `extractParams`: it only collapses
repeated slashes (no trailing-slash strip, no empty coercion). -/
def normalizePathExtract (s : Str) : Str := collapseSlashes s

/-- Decimal digits of a natural number, fuelled (fuel `n + 1` suffices). -/
def natStrAux : Nat → Nat → Str
  | 0, _ => []
  | f + 1, n =>
    if n < 10 then [Nat.digitChar n]
    else natStrAux f (n / 10) ++ [Nat.digitChar (n % 10)]

/-- JS `Number.prototype.toString` for naturals. -/
def natStr (n : Nat) : Str := natStrAux (n + 1) n

/-- JS `Number.prototype.toString` for integers. -/
def intStr (i : Int) : Str :=
  if i < 0 then '-' :: natStr i.natAbs else natStr i.natAbs

/-! ### Path-pattern compilation and matching

`matchPath`/`extractParams` compile a route pattern by escaping regex
metacharacters, replacing each `:name` (name = `\w+`) by the capture
`([^/]+)` while collecting the names, and replacing each `*` by `.*`,
then matching the anchored result.  The escaping step only protects
literal characters, so the compiled regex is exactly a sequence of the
three token kinds below; `tokenize` produces that sequence directly. -/

/-- One atom of a compiled route pattern. -/
inductive Tok where
  | lit (c : Char)
  | param (name : Str)
  | star
  deriving Repr, DecidableEq

/-- JS regex `\w` (ASCII word character). -/
def isWordChar (c : Char) : Bool := c.isAlphanum || c = '_'

/-- Collects the longest run of literal word-character tokens, exactly the
characters the regex `:(\w+)` would absorb after a colon. -/
def grabWord : List Tok → (Str × List Tok)
  | .lit c :: ts =>
    if isWordChar c then
      let (w, ts') := grabWord ts
      (c :: w, ts')
    else ([], .lit c :: ts)
  | ts => ([], ts)

/-- Compiles a route pattern to its token sequence: `:(\w+)` becomes a
one-segment capture, `*` becomes a greedy wildcard, and every other
character (after the metacharacter escaping, which is semantically
transparent) is a literal. -/
def tokenize : Str → List Tok
  | [] => []
  | c :: rest =>
    let ts := tokenize rest
    if c = '*' then .star :: ts
    else if c = ':' then
      match grabWord ts with
      | ([], _) => .lit ':' :: ts
      | (w, ts') => .param w :: ts'
    else .lit c :: ts

/-- All splits of `s` as (prefix, suffix), longest prefix first — the
order a greedy backtracking regex engine tries quantifier lengths. -/
def splitsDesc (s : Str) : List (Str × Str) :=
  ((List.range (s.length + 1)).reverse).map (fun k => (s.take k, s.drop k))

/-- Anchored match of a compiled token sequence against a string with the
greedy leftmost-preference semantics of the JS regex engine; returns the
list of capture-group contents (one per `param` token, left to right). -/
def matchToks : List Tok → Str → Option (List Str)
  | [], s => if s.isEmpty then some [] else none
  | .lit c :: ts, s =>
    match s with
    | [] => none
    | d :: s' => if c = d then matchToks ts s' else none
  | .param _ :: ts, s =>
    (splitsDesc s).findSome? (fun pr =>
      if pr.1 ≠ [] ∧ pr.1.all (fun c => c ≠ '/') then
        (matchToks ts pr.2).map (fun caps => pr.1 :: caps)
      else none)
  | .star :: ts, s =>
    (splitsDesc s).findSome? (fun pr => matchToks ts pr.2)

/-- The `:name` identifiers collected during compilation, in order. -/
def paramNames (ts : List Tok) : List Str :=
  ts.filterMap (fun t => match t with | .param n => some n | _ => none)

/-- A route pattern: either a pattern string, or a precompiled regular
expression, modelled by the anchored token class the string compiler
produces (the escape hatch used by regex routes in the source). -/
inductive RoutePattern where
  | str (s : Str)
  | regex (toks : List Tok)

/-- `matchPath(prefix, routePath, requestPath)`: for a string pattern,
concatenates normalized prefix and pattern with a slash, normalizes,
compiles and tests against the normalized request path; for a regex
pattern, tests the regex directly against the normalized request path. -/
def matchPath (pfx : Str) (rp : RoutePattern) (reqPath : Str) : Bool :=
  match rp with
  | .regex toks => (matchToks toks (normalizePathMatch reqPath)).isSome
  | .str s =>
    let np := normalizePathMatch pfx
    let nr := normalizePathMatch s
    let full := normalizePathMatch (np ++ "/".data ++ nr)
    (matchToks (tokenize full) (normalizePathMatch reqPath)).isSome

/-- Capture list → `{param1: …, param2: …}` (regex-route extraction). -/
def numberedParams (caps : List Str) : List (Str × Str) :=
  (caps.enum).foldl
    (fun h p => recordSet h ("param".data ++ natStr (p.1 + 1)) p.2) []

/-- `extractParams(prefix, routePath, requestPath)`: concatenates the
collapsed prefix and pattern (no slash inserted, unlike `matchPath`),
compiles, and runs extraction against the raw request path; capture
groups are assigned 1:1, in order, to the collected `:name` identifiers
(or to `param1…paramN` for regex routes).  Returns `{}` on no match. -/
def extractParams (pfx : Str) (rp : RoutePattern) (reqPath : Str) :
    List (Str × Str) :=
  match rp with
  | .regex toks =>
    match matchToks toks reqPath with
    | some caps => numberedParams caps
    | none => []
  | .str s =>
    let full := normalizePathExtract (normalizePathExtract pfx ++ normalizePathExtract s)
    let toks := tokenize full
    match matchToks toks reqPath with
    | some caps =>
      ((paramNames toks).zip caps).foldl (fun h kv => recordSet h kv.1 kv.2) []
    | none => []

/-! ### Pipeline -/

/-- A thrown JS value caught by the router's failure boundary: either an
`HTTPError` (tagged with its status code) or any other failure (name,
message, and the already-split-and-trimmed stack lines). -/
inductive Err where
  | http (message : Str) (statusCode : Int)
  | internal (name message : Str) (stack : List Str)
  deriving DecidableEq

/-- What a middleware handler does with its context and continuation:
return without calling the continuation, raise, or call the continuation
once (with the context as mutated so far) and apply a pure
post-transformation to the context after the continuation returns. -/
inductive HandlerAction (σ : Type) where
  | stop (c : σ)
  | throw (c : σ) (e : Err)
  | next (c : σ) (post : σ → σ)

/-- A named middleware stage. -/
structure Mw (σ : Type) where
  name : Str
  handler : σ → HandlerAction σ

/-- An ordered middleware pipeline. -/
structure Pipeline (σ : Type) where
  handlers : List (Mw σ)

/-- Runs the stages of `Pipeline.handle`'s continuation chain: returns the
final context, the names of the stages that were started (the source's
`index` counter equals this list's length), and whether a stage threw. -/
def runStages : List (Mw σ) → σ → σ × List Str × Except Err Unit
  | [], c => (c, [], .ok ())
  | m :: rest, c =>
    match m.handler c with
    | .stop c' => (c', [m.name], .ok ())
    | .throw c' e => (c', [m.name], .error e)
    | .next c' post =>
      match runStages rest c' with
      | (c'', t, .ok ()) => (post c'', m.name :: t, .ok ())
      | (c'', t, .error e) => (c'', m.name :: t, .error e)

/-- `Pipeline.handle(context)`: runs the continuation chain and reports
`index === this.handlers.length` — the count of started stages against
the registered stage count.  A thrown error rejects instead. -/
def Pipeline.handle (p : Pipeline σ) (c : σ) : σ × List Str × Except Err Bool :=
  match runStages p.handlers c with
  | (c', t, .ok ()) => (c', t, .ok (t.length == p.handlers.length))
  | (c', t, .error e) => (c', t, .error e)

/-- Inserts an element at position `i` (JS `splice(i, 0, a)`). -/
def insertAt : Nat → α → List α → List α
  | 0, a, l => a :: l
  | _ + 1, a, [] => [a]
  | n + 1, a, x :: l => x :: insertAt n a l

/-- `Pipeline.addFirst`: unshift a named stage (the name argument is the
resolved `handlerName || handler.name`). -/
def Pipeline.addFirst (p : Pipeline σ) (h : σ → HandlerAction σ) (nm : Str) :
    Pipeline σ := ⟨⟨nm, h⟩ :: p.handlers⟩

/-- `Pipeline.addLast`: push a named stage. -/
def Pipeline.addLast (p : Pipeline σ) (h : σ → HandlerAction σ) (nm : Str) :
    Pipeline σ := ⟨p.handlers ++ [⟨nm, h⟩]⟩

/-- `Pipeline.addBefore`: splice the new stage in at the index of the
first stage named `before`; throws when no stage has that name. -/
def Pipeline.addBefore (p : Pipeline σ) (before : Str)
    (h : σ → HandlerAction σ) (nm : Str) : Except Str (Pipeline σ) :=
  match p.handlers.findIdx? (fun m => m.name == before) with
  | some i => .ok ⟨insertAt i ⟨nm, h⟩ p.handlers⟩
  | none => .error ("Handler with name not found: ".data ++ before)

/-- `Pipeline.addAfter`: splice the new stage in just after the index of
the first stage named `after`; throws when no stage has that name. -/
def Pipeline.addAfter (p : Pipeline σ) (after : Str)
    (h : σ → HandlerAction σ) (nm : Str) : Except Str (Pipeline σ) :=
  match p.handlers.findIdx? (fun m => m.name == after) with
  | some i => .ok ⟨insertAt (i + 1) ⟨nm, h⟩ p.handlers⟩
  | none => .error ("Handler with name not found: ".data ++ after)

/-- When every stage of the list calls its continuation on the given
context: the context the stage after them would receive, and the composed
post-continuation transformation they apply on the way back out. -/
def callsAll : List (Mw σ) → σ → Option (σ × (σ → σ))
  | [], c => some (c, id)
  | m :: rest, c =>
    match m.handler c with
    | .next c' post => (callsAll rest c').map (fun pr => (pr.1, post ∘ pr.2))
    | _ => none

/-! ### HTTP data model -/

/-- The standard HTTP methods of the `HTTPMethod` union type. -/
inductive Method where
  | GET | POST | PUT | PATCH | DELETE | OPTIONS | HEAD
  deriving Repr, DecidableEq

/-- The method as the string it is in the source. -/
def methodStr : Method → Str
  | .GET => "GET".data
  | .POST => "POST".data
  | .PUT => "PUT".data
  | .PATCH => "PATCH".data
  | .DELETE => "DELETE".data
  | .OPTIONS => "OPTIONS".data
  | .HEAD => "HEAD".data

/-- `DefaultStatus`: the per-method default response status table. -/
def DefaultStatus : Method → Int
  | .GET => 200
  | .POST => 201
  | .PUT => 204
  | .PATCH => 204
  | .DELETE => 204
  | .OPTIONS => 204
  | .HEAD => 204

/-- A JS response-data value (string / number / boolean / array / object). -/
inductive RVal where
  | s (v : Str)
  | i (v : Int)
  | b (v : Bool)
  | list (vs : List RVal)
  | obj (fields : List (Str × RVal))

/-- Response data: `null`/`undefined` or a value. -/
inductive RData where
  | null
  | val (v : RVal)

/-- JS truthiness of a response-data value (the router's
`if (response)` test before storing a handler's return value). -/
def RData.truthy : RData → Bool
  | .null => false
  | .val (.s x) => !x.isEmpty
  | .val (.i n) => n != 0
  | .val (.b bb) => bb
  | .val (.list _) => true
  | .val (.obj _) => true

/-- The request view of a context (the fields the modelled code reads). -/
structure Req where
  method : Method
  path : Str
  ip : Option Str

/-- The response view: status (sentinel -1 until assigned), headers, data. -/
structure Res where
  status : Int
  headers : List (Str × Str)
  data : RData

/-- The per-request context threaded through pipelines and handlers. -/
structure Ctx where
  req : Req
  res : Res
  params : List (Str × Str)

/-! ### Router -/

/-- A route handler: may mutate the context and returns response data or
throws (`RouteHandler` in the source). -/
abbrev RouteHandler := Ctx → Ctx × Except Err RData

/-- A registered route.  `status`/`headers` exist on the source type but
are never read by `Router.handle`. -/
structure Route where
  method : Method
  path : RoutePattern
  handle : RouteHandler
  status : Option Int
  headers : Option (List (Str × Str))

/-- A router node: prefix, routes (a JS `Set`, which iterates in insertion
order — modelled as a list), child routers in registration order, and the
pre- and post-pipelines. -/
inductive Router where
  | mk (pfx : Str) (routes : List Route) (children : List Router)
      (pl : Pipeline Ctx) (postPl : Pipeline Ctx)

/-- The router's own prefix. -/
def Router.pfx : Router → Str
  | .mk p _ _ _ _ => p

/-- The router's routes in registration order. -/
def Router.routesOf : Router → List Route
  | .mk _ r _ _ _ => r

/-- The router's children in registration order. -/
def Router.childrenOf : Router → List Router
  | .mk _ _ c _ _ => c

/-- The router's pre-pipeline. -/
def Router.pipelineOf : Router → Pipeline Ctx
  | .mk _ _ _ pl _ => pl

/-- The router's post-pipeline. -/
def Router.postPipelineOf : Router → Pipeline Ctx
  | .mk _ _ _ _ postPl => postPl

/-- The `fullPrefix` computed by `lookupPath`: the parents' prefixes
joined with "/" with every "//" collapsed, then (when that is nonempty)
prepended with a "/" to this router's prefix, with only the first "//"
occurrence collapsed (`.replace`, not `.replaceAll`, in the source). -/
def fullPfxOf (parents : List Router) (pfx : Str) : Str :=
  let parentPfx :=
    replaceAll "//".data "/".data
      (List.intercalate "/".data (parents.map Router.pfx))
  replaceFirst "//".data "/".data
    (if parentPfx ≠ [] then parentPfx ++ "/".data ++ pfx else pfx)

/-- A successful lookup: the route, its extracted parameters, and the
ancestor chain from outermost to innermost (excluding the owner). -/
structure LookupResult where
  route : Route
  params : List (Str × Str)
  parents : List Router

mutual

/-- `Router.lookupPath(method, path, parents)`: scan this router's own
routes in order for a `(matchPath ∧ equal method)` hit; on a hit return
it with its extracted parameters and the given ancestor chain; otherwise
recurse into the children in order with this router appended to the
chain. -/
def Router.lookupPath (m : Method) (p : Str) :
    Router → List Router → Option LookupResult
  | .mk pfx routes children pl postPl, parents =>
    let fp := fullPfxOf parents pfx
    match routes.find? (fun rt => matchPath fp rt.path p && rt.method == m) with
    | some rt => some ⟨rt, extractParams fp rt.path p, parents⟩
    | none =>
      Router.lookupChildren m p children
        (parents ++ [.mk pfx routes children pl postPl])

/-- The child loop of `lookupPath`: first child with a result wins. -/
def Router.lookupChildren (m : Method) (p : Str) :
    List Router → List Router → Option LookupResult
  | [], _ => none
  | child :: rest, parents =>
    match Router.lookupPath m p child parents with
    | some res => some res
    | none => Router.lookupChildren m p rest parents

end

/-- The ancestor pre-pipeline loop of `Router._handle`: runs each parent's
pre-pipeline in order; `.ok false` when one reports incomplete (the loop
returns early), propagating a thrown error. -/
def runParentPres : List Router → Ctx → Ctx × List Str × Except Err Bool
  | [], c => (c, [], .ok true)
  | r :: rest, c =>
    match r.pipelineOf.handle c with
    | (c', t, .error e) => (c', t, .error e)
    | (c', t, .ok false) => (c', t, .ok false)
    | (c', t, .ok true) =>
      match runParentPres rest c' with
      | (c'', t', res) => (c'', t ++ t', res)

/-- The dispatch part of `Router._handle`, reached when this router's own
pre-pipeline reported complete: resolve the route; when found, run the
ancestors' pre-pipelines (returning early with the full parent list if one
short-circuits), bind the parameters, invoke the handler, and store a
truthy return value into `res.data`; when not found, throw the
`NotFoundError` "Route not found: METHOD PATH" (status 404). -/
def Router.dispatch (r : Router) (c : Ctx) :
    Ctx × List Str × Except Err (RData × List Router) :=
  match Router.lookupPath c.req.method c.req.path r [] with
  | none =>
    (c, [], .error (.http
      ("Route not found: ".data ++ methodStr c.req.method ++ " ".data ++ c.req.path) 404))
  | some res =>
    match runParentPres res.parents c with
    | (c2, t2, .error e) => (c2, t2, .error e)
    | (c2, t2, .ok false) => (c2, t2, .ok (c2.res.data, res.parents))
    | (c2, t2, .ok true) =>
      let c3 := { c2 with params := res.params }
      match res.route.handle c3 with
      | (c4, .error e) => (c4, t2, .error e)
      | (c4, .ok response) =>
        let c5 :=
          if response.truthy then { c4 with res := { c4.res with data := response } }
          else c4
        (c5, t2, .ok (c5.res.data, res.parents))

/-- `Router._handle(context)`: run this router's own pre-pipeline; when it
reports complete, dispatch; otherwise resolve to `(res.data, [])`
without dispatching.  A thrown error propagates to the boundary. -/
def Router._handle (r : Router) (c : Ctx) :
    Ctx × List Str × Except Err (RData × List Router) :=
  match r.pipelineOf.handle c with
  | (c1, t1, .error e) => (c1, t1, .error e)
  | (c1, t1, .ok true) =>
    match r.dispatch c1 with
    | (c2, t2, res) => (c2, t1 ++ t2, res)
  | (c1, t1, .ok false) => (c1, t1, .ok (c1.res.data, []))

/-- The `.catch` callback of `Router.handle`: an `HTTPError` maps to its
carried status and message; any other failure maps to 500 with a generic
message and — outside production — `_internal` diagnostics appended to
the response body.  Returns the mutated context and `ctx.res.data`. -/
def Router.catchStep (isDev : Bool) (c : Ctx) (e : Err) : Ctx × RData :=
  let status : Int := match e with | .http _ sc => sc | .internal _ _ _ => 500
  let message : Str :=
    match e with
    | .http msg _ => msg
    | .internal _ _ _ => "Internal Server Error".data
  let dataV : RVal :=
    match e with
    | .http _ _ => .obj [("error".data, .s message), ("statusCode".data, .i status)]
    | .internal nm msg stack =>
      if isDev then
        .obj [("error".data, .s message), ("statusCode".data, .i status),
          ("_internal".data, .obj [("name".data, .s nm), ("message".data, .s msg),
            ("stack".data, .list (stack.map RVal.s))]),
          ("_internal_tip".data,
            .s "Set NODE_ENV=production to disable error details.".data)]
      else .obj [("error".data, .s message), ("statusCode".data, .i status)]
  let c' := { c with res := { c.res with status := status, data := .val dataV } }
  (c', .val dataV)

/-- The body stage of `Router.handle` up to and including the `.catch`
failure boundary: yields the context, the stage trace, and either the
`HandleResult` (success) or the error body returned by the catch. -/
def Router.bodyPhase (r : Router) (isDev : Bool) (c : Ctx) :
    Ctx × List Str × ((RData × List Router) ⊕ RData) :=
  match r._handle c with
  | (c1, t1, .ok hr) => (c1, t1, .inl hr)
  | (c1, t1, .error e) =>
    match Router.catchStep isDev c1 e with
    | (c2, d) => (c2, t1, .inr d)

/-- The default-status assignment at the head of the `.then` callback:
`if (ctx.res.status === -1) ctx.res.status = DefaultStatus[ctx.req.method]`. -/
def Router.defaultStatusStep (c : Ctx) : Ctx :=
  if c.res.status = -1 then
    { c with res := { c.res with status := DefaultStatus c.req.method } }
  else c

/-- The ancestor post-pipeline loop of the `.then` callback: each parent's
post-pipeline in order, ignoring the completion flag; a thrown error
skips the remaining parents and rejects. -/
def runPostPipelines : List Router → Ctx → Ctx × List Str × Except Err Unit
  | [], c => (c, [], .ok ())
  | r :: rest, c =>
    match r.postPipelineOf.handle c with
    | (c', t, .error e) => (c', t, .error e)
    | (c', t, .ok _) =>
      match runPostPipelines rest c' with
      | (c'', t', res) => (c'', t ++ t', res)

/-- The `.then` callback of `Router.handle`: assigns the default status,
then — only when the incoming value is a `HandleResult` (i.e. the body
succeeded; the catch's error body has no `parents` field) — runs each
parent's post-pipeline, resolving with the captured `data`; on the error
path it resolves with `undefined` and runs no parent post-pipeline. -/
def Router.thenPhase (_r : Router) (c : Ctx)
    (result : (RData × List Router) ⊕ RData) :
    Ctx × List Str × Except Err (Option RData) :=
  let c3 := Router.defaultStatusStep c
  match result with
  | .inl (d, parents) =>
    match runPostPipelines parents c3 with
    | (c4, t2, .ok ()) => (c4, t2, .ok (some d))
    | (c4, t2, .error e) => (c4, t2, .error e)
  | .inr _ => (c3, [], .ok none)

/-- The `.finally` callback of `Router.handle`: this router's own
post-pipeline runs unconditionally; if it throws, that error wins,
otherwise the incoming outcome is kept. -/
def Router.finallyPhase (r : Router) (c : Ctx)
    (res : Except Err (Option RData)) :
    Ctx × List Str × Except Err (Option RData) :=
  match r.postPipelineOf.handle c with
  | (c5, t3, .ok _) => (c5, t3, res)
  | (c5, t3, .error e) => (c5, t3, .error e)

/-- `Router.handle(ctx)`: the `_handle ▸ catch ▸ then ▸ finally` promise
chain, with the executed stage names of all pipelines concatenated into
one trace. -/
def Router.handle (r : Router) (isDev : Bool) (c : Ctx) :
    Ctx × List Str × Except Err (Option RData) :=
  match r.bodyPhase isDev c with
  | (c2, t1, result) =>
    match r.thenPhase c2 result with
    | (c4, t2, res2) =>
      match r.finallyPhase c4 res2 with
      | (c5, t3, res3) => (c5, t1 ++ t2 ++ t3, res3)

/-! ### Built-in middlewares -/

/-- `CorsSettings`. -/
structure CorsSettings where
  origin : Option Str
  methods : Option (List Str)
  allowedHeaders : Option (List Str)
  exposedHeaders : Option (List Str)
  credentials : Bool
  maxAge : Option Int

/-- JS `Array.prototype.join(", ")`. -/
def joinCommaSpace (xs : List Str) : Str := List.intercalate ", ".data xs

/-- The header writes of the CORS handler, in source order; each guard is
the JS truthiness of the corresponding setting (an empty `origin` string
and a zero `maxAge` are falsy; arrays are always truthy). -/
def corsHeaders (s : CorsSettings) (h : List (Str × Str)) : List (Str × Str) :=
  let h := match s.origin with
    | some o => if o = [] then h else recordSet h "Access-Control-Allow-Origin".data o
    | none => h
  let h := match s.methods with
    | some ms => recordSet h "Access-Control-Allow-Methods".data (joinCommaSpace ms)
    | none => h
  let h := match s.allowedHeaders with
    | some hs => recordSet h "Access-Control-Allow-Headers".data (joinCommaSpace hs)
    | none => h
  let h := match s.exposedHeaders with
    | some hs => recordSet h "Access-Control-Expose-Headers".data (joinCommaSpace hs)
    | none => h
  let h := if s.credentials then
      recordSet h "Access-Control-Allow-Credentials".data "true".data
    else h
  match s.maxAge with
  | some n => if n = 0 then h else recordSet h "Access-Control-Max-Age".data (intStr n)
  | none => h

/-- `CorsMiddleware(settings)`: a stage named "cors" that writes the
configured headers, then for `OPTIONS` sets status 204 and returns
without calling the continuation, and otherwise calls the continuation. -/
def corsMiddleware (s : CorsSettings) : Mw Ctx :=
  ⟨"cors".data, fun c =>
    let c1 := { c with res := { c.res with headers := corsHeaders s c.res.headers } }
    if c.req.method = .OPTIONS then
      .stop { c1 with res := { c1.res with status := 204 } }
    else
      .next c1 id⟩

/-- `RateLimitSettings` (the shared reset timer is outside this
per-request model; the hit table is passed explicitly). -/
structure RateLimitSettings where
  max : Int
  duration : Int
  ratelimitCallback : Option (Ctx → Ctx × RData)
  appendHeaders : Bool

/-- The client key of the rate limiter: `req.ip || "127.0.0.1"`. -/
def rlKey (c : Ctx) : Str :=
  match c.req.ip with
  | some a => if a = [] then "127.0.0.1".data else a
  | none => "127.0.0.1".data

/-- One request through the rate-limit handler, with the module-level hit
table passed and returned explicitly: at or above `max`, either invoke
the configured rejection callback or set status 429, in both cases
without calling the continuation; below `max`, increment the key's
counter, append the quota headers when configured, and call the
continuation. -/
def rateLimitStep (s : RateLimitSettings) (hits : List (Str × Nat)) (c : Ctx) :
    List (Str × Nat) × HandlerAction Ctx :=
  let ip := rlKey c
  let addressHits : Nat := (recordGet hits ip).getD 0
  if (addressHits : Int) ≥ s.max then
    match s.ratelimitCallback with
    | some cb => (hits, .stop (cb c).1)
    | none => (hits, .stop { c with res := { c.res with status := 429 } })
  else
    let hits' := recordSet hits ip (addressHits + 1)
    let c' :=
      if s.appendHeaders then
        { c with res := { c.res with headers :=
            (recordSet
              (recordSet c.res.headers "X-RateLimit-Limit".data (intStr s.max))
              "X-RateLimit-Remaining".data (intStr (s.max - addressHits - 1))) } }
      else c
    (hits', .next c' id)

/-! ### Specification-side definitions (for the lookup refinement claim)

`lookupSpec` is written from the specification's words, independently of
the implementation's recursion: flatten the router tree into the ordered
candidate list (this router's routes in registration order, then the
children's candidates recursively in registration order, each route
carrying its normalized full prefix and ancestor chain) and return the
first candidate whose matcher matches the path with equal method. -/

/-- A flattened candidate: full prefix, route, ancestor chain. -/
structure Candidate where
  fp : Str
  route : Route
  parents : List Router

mutual

/-- All routes reachable from a router, in this-router-then-children,
registration order, each with its full prefix and ancestor chain. -/
def Router.candidates : Router → List Router → List Candidate
  | .mk pfx routes children pl postPl, parents =>
    let fp := fullPfxOf parents pfx
    routes.map (fun rt => ⟨fp, rt, parents⟩) ++
      Router.candidatesList children (parents ++ [.mk pfx routes children pl postPl])

/-- Candidates of a list of routers, in order. -/
def Router.candidatesList : List Router → List Router → List Candidate
  | [], _ => []
  | child :: rest, parents =>
    Router.candidates child parents ++ Router.candidatesList rest parents

end

/-- The specification's matching condition on a candidate: its compiled
(normalized prefix + pattern) matcher matches the path and its method
equals the given method. -/
def candPred (m : Method) (p : Str) : Candidate → Bool :=
  fun cd => matchPath cd.fp cd.route.path p && cd.route.method == m

/-- The specification's result for a matching candidate: the route, its
extracted parameters, and its ancestor chain. -/
def candResult (p : Str) : Candidate → LookupResult :=
  fun cd => ⟨cd.route, extractParams cd.fp cd.route.path p, cd.parents⟩

/-- The specification's description of lookup: the first-registered
candidate whose compiled matcher matches the path and whose method equals
the given method, with its extracted parameters and ancestor chain. -/
def lookupSpec (m : Method) (p : Str) (r : Router) (parents : List Router) :
    Option LookupResult :=
  ((Router.candidates r parents).find? (candPred m p)).map (candResult p)

end Choco

namespace Choco

/-! ### Pipeline lemmas -/

/-- Running a stage list that starts with stages that all call their
continuation: the tail runs on the context they pass inward, their names
prefix the trace, and their post-transformations wrap the final context
(unless the tail throws, in which case the exception propagates past
them). -/
theorem callsAll_runStages (ys : List (Mw σ)) :
    ∀ (xs : List (Mw σ)) (c cin : σ) (F : σ → σ),
      callsAll xs c = some (cin, F) →
      runStages (xs ++ ys) c =
        (match runStages ys cin with
         | (c2, t2, Except.ok ()) => (F c2, xs.map Mw.name ++ t2, Except.ok ())
         | (c2, t2, Except.error e) => (c2, xs.map Mw.name ++ t2, Except.error e)) := by
  intro xs
  induction xs with
  | nil =>
    intro c cin F h
    simp only [callsAll, Option.some.injEq, Prod.mk.injEq] at h
    obtain ⟨h1, h2⟩ := h
    subst h1; subst h2
    rcases hr : runStages ys c with ⟨c2, t2, r⟩
    cases r with
    | ok u => cases u; simpa using hr
    | error e => simpa using hr
  | cons m rest ih =>
    intro c cin F h
    rcases hm : m.handler c with ⟨c'⟩ | ⟨c', e⟩ | ⟨c', post⟩
    · unfold callsAll at h; rw [hm] at h; simp at h
    · unfold callsAll at h; rw [hm] at h; simp at h
    · unfold callsAll at h; rw [hm] at h; dsimp only at h
      rcases hres : callsAll rest c' with _ | ⟨cin', F'⟩
      · rw [hres] at h; simp at h
      · rw [hres] at h
        simp only [Option.map_some', Option.some.injEq, Prod.mk.injEq] at h
        obtain ⟨h1, h2⟩ := h
        subst h1; subst h2
        simp only [List.cons_append, runStages, hm]
        simp only [List.append_eq]
        rw [ih c' cin' F' hres]
        rcases hr : runStages ys cin' with ⟨c2, t2, r⟩
        cases r with
        | ok u => cases u; simp [Function.comp]
        | error e => simp

/-- A pipeline whose stages up to some stage all call their continuation,
and whose next stage returns without calling it: the later stages do not
execute, the trace is exactly the started stages, and the completion flag
is true exactly when the stopping stage was the last one registered. -/
theorem handle_stop_middle (p : Pipeline σ) (c : σ) (xs ys : List (Mw σ))
    (m : Mw σ) (cin c' : σ) (F : σ → σ)
    (hp : p.handlers = xs ++ m :: ys)
    (hca : callsAll xs c = some (cin, F))
    (hm : m.handler cin = .stop c') :
    p.handle c = (F c', xs.map Mw.name ++ [m.name], .ok ys.isEmpty) := by
  have hrun : runStages (xs ++ m :: ys) c
      = (F c', xs.map Mw.name ++ [m.name], Except.ok ()) := by
    rw [callsAll_runStages (m :: ys) xs c cin F hca]
    simp [runStages, hm]
  simp only [Pipeline.handle, hp, hrun]
  have hflag : ((xs.map Mw.name ++ [m.name]).length == (xs ++ m :: ys).length)
      = ys.isEmpty := by
    cases ys with
    | nil => simp
    | cons y ys' =>
      simp only [List.isEmpty_cons, List.length_append, List.length_map,
        List.length_cons, List.length_nil, beq_eq_false_iff_ne, ne_eq]
      omega
  rw [hflag]

/-- A pipeline all of whose stages call their continuation completes:
the trace lists every stage and the flag is true. -/
theorem handle_all_next (p : Pipeline σ) (c cin : σ) (F : σ → σ)
    (hca : callsAll p.handlers c = some (cin, F)) :
    p.handle c = (F cin, p.handlers.map Mw.name, .ok true) := by
  have hrun : runStages (p.handlers ++ []) c
      = (F cin, p.handlers.map Mw.name, Except.ok ()) := by
    rw [callsAll_runStages [] p.handlers c cin F hca]
    simp [runStages]
  rw [List.append_nil] at hrun
  simp [Pipeline.handle, hrun]

/-- C1: short-circuit property of `Pipeline.handle`, amended.  If the
stages before some stage all invoke their continuation and that stage
does not, then no stage after it executes (the trace is exactly the
earlier stages followed by it), and `handle` reports incomplete (false)
exactly when the short-circuiting stage is not the last registered stage;
when the short-circuiting stage IS the last registered stage, `handle`
reports complete (true), because the source's completion test
`index === handlers.length` cannot distinguish that case.  If every stage
invokes its continuation, `handle` reports complete (true). -/
theorem claim_C1_pipeline_short_circuit (σ : Type) (p : Pipeline σ) (c : σ) :
    (∀ (xs ys : List (Mw σ)) (m : Mw σ) (cin c' : σ) (F : σ → σ),
      p.handlers = xs ++ m :: ys →
      callsAll xs c = some (cin, F) →
      m.handler cin = .stop c' →
      p.handle c = (F c', xs.map Mw.name ++ [m.name], .ok ys.isEmpty)) ∧
    (∀ (cin : σ) (F : σ → σ),
      callsAll p.handlers c = some (cin, F) →
      p.handle c = (F cin, p.handlers.map Mw.name, .ok true)) := by
  constructor
  · intro xs ys m cin c' F hp hca hm
    exact handle_stop_middle p c xs ys m cin c' F hp hca hm
  · intro cin F hca
    exact handle_all_next p c cin F hca

/-- Stage for witnesses: returns without calling the continuation. -/
def mwStopA : Mw Nat := ⟨"a".data, fun c => .stop c⟩

/-- Stage for witnesses: calls the continuation unchanged. -/
def mwNextB : Mw Nat := ⟨"b".data, fun c => .next c id⟩

/-- C1 counterexample: a pipeline whose single (hence last) stage does
not invoke its continuation, yet `handle` reports complete (true), not
incomplete (false) as the claim states. -/
theorem claim_C1_counterexample :
    Pipeline.handle (σ := Nat) ⟨[mwStopA]⟩ 0 = (0, ["a".data], .ok true) ∧
    Pipeline.handle (σ := Nat) ⟨[mwStopA]⟩ 0 ≠ (0, ["a".data], .ok false) := by
  constructor
  · rfl
  · intro h
    simp [Pipeline.handle, runStages, mwStopA] at h

/-- C1 witness: the amended theorem applied to a two-stage pipeline whose
first stage stops — the second stage does not run and `handle` reports
incomplete. -/
theorem claim_C1_witness :
    Pipeline.handle (σ := Nat) ⟨[mwStopA, mwNextB]⟩ 7
      = (7, ["a".data], .ok false) :=
  (claim_C1_pipeline_short_circuit Nat ⟨[mwStopA, mwNextB]⟩ 7).1
    [] [mwNextB] mwStopA 7 7 id rfl rfl rfl

/-- C10: a pipeline with no registered stages reports complete (true) on
every context, and a router whose pre-pipeline has no stages proceeds to
route resolution and dispatch (`_handle` is exactly `dispatch`). -/
theorem claim_C10_empty_pipeline :
    (∀ (σ : Type) (p : Pipeline σ) (c : σ),
      p.handlers = [] → p.handle c = (c, [], .ok true)) ∧
    (∀ (r : Router) (c : Ctx),
      r.pipelineOf = ⟨[]⟩ → r._handle c = r.dispatch c) := by
  constructor
  · intro σ p c hp
    simp [Pipeline.handle, runStages, hp]
  · intro r c hp
    simp only [Router._handle, hp, Pipeline.handle, runStages, List.length_nil]
    rcases hd : r.dispatch c with ⟨c2, t2, res⟩
    simpa using hd

/-- C10 witness: the empty-pipeline theorem at a concrete pipeline and a
concrete stage-free router. -/
theorem claim_C10_witness :
    Pipeline.handle (σ := Nat) ⟨[]⟩ 5 = (5, [], .ok true) ∧
    Router._handle (.mk "".data [] [] ⟨[]⟩ ⟨[]⟩)
        { req := { method := .GET, path := "/".data, ip := none },
          res := { status := -1, headers := [], data := .null }, params := [] }
      = Router.dispatch (.mk "".data [] [] ⟨[]⟩ ⟨[]⟩)
        { req := { method := .GET, path := "/".data, ip := none },
          res := { status := -1, headers := [], data := .null }, params := [] } :=
  ⟨claim_C10_empty_pipeline.1 Nat ⟨[]⟩ 5 rfl,
   claim_C10_empty_pipeline.2 _ _ rfl⟩

end Choco

namespace Choco

/-! ### Pipeline insertion order (C9) -/

/-- `findIdx?` locates the first element satisfying the predicate; with a
witness at position `us.length` and no earlier hit, it returns the start
offset plus that position. -/
theorem findIdx?_first_hit (q : α → Bool) :
    ∀ (us : List α) (v : α) (ws : List α) (i : Nat),
      q v = true → (∀ u ∈ us, q u = false) →
      (us ++ v :: ws).findIdx? q i = some (i + us.length) := by
  intro us
  induction us with
  | nil =>
    intro v ws i hv _
    simp [List.findIdx?, hv]
  | cons u us' ih =>
    intro v ws i hv hus
    have hu : q u = false := hus u (by simp)
    simp only [List.cons_append, List.findIdx?, hu, List.append_eq]
    rw [if_neg (by simp)]
    rw [ih v ws (i + 1) hv (fun x hx => hus x (by simp [hx]))]
    simp only [List.length_cons]
    congr 1
    omega

/-- `insertAt` at the junction point of an append splices the element in
between the two lists. -/
theorem insertAt_append (a : α) :
    ∀ (us ws : List α), insertAt us.length a (us ++ ws) = us ++ a :: ws := by
  intro us
  induction us with
  | nil => intro ws; simp [insertAt]
  | cons u us' ih => intro ws; simp [insertAt, ih]

/-- C9: pipeline insertion operations determine execution order as lists.
Starting from the empty pipeline, `addFirst A; addLast B` gives stage
order [A, B]; `addBefore "B" C` then gives [A, C, B]; `addAfter "A" D`
then gives [A, D, C, B]; and in general `addBefore`/`addAfter` insert
immediately before/after the first stage whose name equals the anchor.
(The stage list is the execution order: by the C1 machinery,
`Pipeline.handle` starts stages in list order.) -/
theorem claim_C9_pipeline_insertion (σ : Type)
    (hA hB hC hD : σ → HandlerAction σ) :
    (((Pipeline.addFirst ⟨[]⟩ hA "A".data).addLast hB "B".data).handlers
      = [⟨"A".data, hA⟩, ⟨"B".data, hB⟩]) ∧
    (((Pipeline.addFirst ⟨[]⟩ hA "A".data).addLast hB "B".data).addBefore
        "B".data hC "C".data
      = .ok ⟨[⟨"A".data, hA⟩, ⟨"C".data, hC⟩, ⟨"B".data, hB⟩]⟩) ∧
    (Pipeline.addAfter ⟨[⟨"A".data, hA⟩, ⟨"C".data, hC⟩, ⟨"B".data, hB⟩]⟩
        "A".data hD "D".data
      = .ok ⟨[⟨"A".data, hA⟩, ⟨"D".data, hD⟩, ⟨"C".data, hC⟩, ⟨"B".data, hB⟩]⟩) ∧
    (∀ (p : Pipeline σ) (us ws : List (Mw σ)) (v : Mw σ)
        (anchor nm : Str) (h : σ → HandlerAction σ),
      p.handlers = us ++ v :: ws → v.name = anchor →
      (∀ u ∈ us, u.name ≠ anchor) →
      p.addBefore anchor h nm = .ok ⟨us ++ ⟨nm, h⟩ :: v :: ws⟩ ∧
      p.addAfter anchor h nm = .ok ⟨us ++ v :: ⟨nm, h⟩ :: ws⟩) := by
  refine ⟨rfl, rfl, rfl, ?_⟩
  intro p us ws v anchor nm h hp hv hus
  have hidx : (us ++ v :: ws).findIdx? (fun m => m.name == anchor) 0
      = some us.length := by
    rw [findIdx?_first_hit (fun m => m.name == anchor) us v ws 0
      (by simp [hv]) (fun u hu => by simp [hus u hu])]
    simp
  constructor
  · simp only [Pipeline.addBefore, hp, hidx]
    rw [insertAt_append]
  · simp only [Pipeline.addAfter, hp, hidx]
    have : insertAt (us.length + 1) (⟨nm, h⟩ : Mw σ) (us ++ v :: ws)
        = us ++ v :: ⟨nm, h⟩ :: ws := by
      have := insertAt_append (⟨nm, h⟩ : Mw σ) (us ++ [v]) ws
      simpa using this
    rw [this]

/-- C9 witness: the first-occurrence insertion clause at a concrete
pipeline. -/
theorem claim_C9_witness :
    Pipeline.addBefore (σ := Nat) ⟨[mwStopA, mwNextB]⟩ "b".data
        (fun c => .stop c) "c".data
      = .ok ⟨[mwStopA, ⟨"c".data, fun c => .stop c⟩, mwNextB]⟩ :=
  ((claim_C9_pipeline_insertion Nat (fun c => .stop c) (fun c => .next c id)
      (fun c => .stop c) (fun c => .stop c)).2.2.2
    ⟨[mwStopA, mwNextB]⟩ [mwStopA] [] mwNextB "b".data "c".data
    (fun c => .stop c) rfl rfl (by decide)).1

end Choco

namespace Choco

/-! ### Lookup refinement (C2) -/

/-- `find?` over a mapped list is the mapped `find?` of the composed
predicate. -/
theorem find?_map_comp (f : α → β) (q : β → Bool) :
    ∀ l : List α, (l.map f).find? q = (l.find? (fun a => q (f a))).map f := by
  intro l
  induction l with
  | nil => rfl
  | cons x xs ih =>
    simp only [List.map_cons, List.find?]
    cases hq : q (f x) with
    | true => simp
    | false => simpa using ih

/-- Structural induction over the router tree with the membership form of
the child hypothesis. -/
theorem Router.inductionMem {motive : Router → Prop}
    (step : ∀ pfx routes children pl postPl,
      (∀ child ∈ children, motive child) →
      motive (Router.mk pfx routes children pl postPl)) :
    ∀ r, motive r := by
  intro r
  refine @Router.rec motive (fun l => ∀ c ∈ l, motive c) step ?_ ?_ r
  · intro c hc
    simp at hc
  · intro head tail mh mt c hc
    rcases List.mem_cons.mp hc with h | h
    · exact h ▸ mh
    · exact mt c h

/-- The child loop of `lookupPath` agrees with first-match search over
the flattened candidates of the children, given the agreement for each
child. -/
theorem lookupChildren_eq (m : Method) (p : Str) :
    ∀ (l : List Router) (parents : List Router),
      (∀ child ∈ l, ∀ ps, Router.lookupPath m p child ps = lookupSpec m p child ps) →
      Router.lookupChildren m p l parents =
        ((Router.candidatesList l parents).find? (candPred m p)).map
          (candResult p) := by
  intro l
  induction l with
  | nil =>
    intro parents _
    rw [Router.lookupChildren, Router.candidatesList]
    rfl
  | cons child rest ih =>
    intro parents hall
    rw [Router.lookupChildren, Router.candidatesList]
    rw [hall child (by simp) parents]
    rw [List.find?_append]
    simp only [lookupSpec]
    rcases hc : (Router.candidates child parents).find? (candPred m p) with _ | cd
    · simp only [Option.map_none', Option.none_or]
      exact ih parents (fun x hx ps => hall x (by simp [hx]) ps)
    · simp

/-- C2: `lookupPath(method, path)` returns the first-registered route —
this router's routes in registration order, then the children recursively
in registration order — whose compiled (normalized prefix + pattern)
matcher matches the path and whose method equals the given method,
together with its extracted parameters and ordered ancestor chain, and
nothing when no candidate matches (`lookupSpec` is that specification,
written as first-match search over the flattened candidate list). -/
theorem claim_C2_lookup_first_match (m : Method) (p : Str) :
    ∀ (r : Router) (parents : List Router),
      Router.lookupPath m p r parents = lookupSpec m p r parents := by
  intro r
  induction r using Router.inductionMem with
  | step pfx routes children pl postPl ih =>
    intro parents
    rw [Router.lookupPath]
    simp only [lookupSpec]
    rw [Router.candidates]
    rw [List.find?_append]
    have hmap := find?_map_comp
      (fun rt => Candidate.mk (fullPfxOf parents pfx) rt parents)
      (candPred m p) routes
    simp only [candPred] at hmap
    rw [hmap]
    rcases hf : routes.find?
        (fun rt => matchPath (fullPfxOf parents pfx) rt.path p && rt.method == m)
      with _ | rt
    · simp only [hf, Option.map_none', Option.none_or]
      exact lookupChildren_eq m p children
        (parents ++ [Router.mk pfx routes children pl postPl]) ih
    · simp only [hf]
      simp [candResult]

end Choco

namespace Choco

/-! ### Parameter extraction (C7) -/

/-- A successful token match produces exactly one capture per `param`
token: the capture list and the collected name list have equal length. -/
theorem matchToks_length (toks : List Tok) :
    ∀ (s : Str) (caps : List Str),
      matchToks toks s = some caps → caps.length = (paramNames toks).length := by
  induction toks with
  | nil =>
    intro s caps h
    simp only [matchToks] at h
    rcases hs : s.isEmpty with _ | _ <;> rw [hs] at h <;> simp at h
    simp [h, paramNames]
  | cons t ts ih =>
    intro s caps h
    cases t with
    | lit c =>
      cases s with
      | nil => simp [matchToks] at h
      | cons d s' =>
        simp only [matchToks] at h
        by_cases hc : c = d
        · rw [if_pos hc] at h
          simpa [paramNames] using ih s' caps h
        · rw [if_neg hc] at h
          simp at h
    | param n =>
      simp only [matchToks] at h
      obtain ⟨pr, _, hpr⟩ := List.exists_of_findSome?_eq_some h
      by_cases hcond : pr.1 ≠ [] ∧ pr.1.all (fun c => c ≠ '/')
      · rw [if_pos hcond] at hpr
        rcases hmt : matchToks ts pr.2 with _ | caps' <;> rw [hmt] at hpr
        · simp at hpr
        · simp only [Option.map_some', Option.some.injEq] at hpr
          subst hpr
          simp only [paramNames, List.filterMap_cons, List.length_cons]
          simpa [paramNames] using ih pr.2 caps' hmt
      · rw [if_neg hcond] at hpr
        simp at hpr
    | star =>
      simp only [matchToks] at h
      obtain ⟨pr, _, hpr⟩ := List.exists_of_findSome?_eq_some h
      simpa [paramNames] using ih pr.2 caps hpr

/-- C7: parameter extraction maps capture groups 1:1, left to right, onto
the collected `:name` identifiers.  With empty prefix, `/user/:name`
against `/user/alice` yields exactly `{name: "alice"}`, and
`/wildcard/*/:name` against `/wildcard/foo/bar` yields exactly
`{name: "bar"}` (the greedy `*` backtracks off the final segment); and in
general every successful match produces exactly one capture per collected
`:name` identifier. -/
theorem claim_C7_param_extraction :
    (extractParams "".data (.str "/user/:name".data) "/user/alice".data
      = [("name".data, "alice".data)]) ∧
    (extractParams "".data (.str "/wildcard/*/:name".data) "/wildcard/foo/bar".data
      = [("name".data, "bar".data)]) ∧
    (matchPath "".data (.str "/user/:name".data) "/user/alice".data = true) ∧
    (matchPath "".data (.str "/wildcard/*/:name".data) "/wildcard/foo/bar".data = true) ∧
    (∀ (toks : List Tok) (s : Str) (caps : List Str),
      matchToks toks s = some caps → caps.length = (paramNames toks).length) := by
  refine ⟨by decide, by decide, by decide, by decide, ?_⟩
  intro toks s caps h
  exact matchToks_length toks s caps h

/-- C7 witness: the 1:1 clause applied to the concrete compiled pattern
`/user/:name` matched against `/user/alice`. -/
theorem claim_C7_witness :
    (["alice".data] : List Str).length
      = (paramNames (tokenize "/user/:name".data)).length :=
  claim_C7_param_extraction.2.2.2.2 (tokenize "/user/:name".data)
    "/user/alice".data ["alice".data] (by decide)

end Choco

namespace Choco

/-! ### Record lookup lemmas -/

/-- Reading the key just assigned yields the assigned value. -/
theorem recordGet_recordSet_self (k : Str) (v : α) :
    ∀ h : List (Str × α), recordGet (recordSet h k v) k = some v := by
  intro h
  induction h with
  | nil => simp [recordSet, recordGet]
  | cons kv rest ih =>
    rcases kv with ⟨k', v'⟩
    by_cases hk : k' = k
    · simp [recordSet, recordGet, hk]
    · simp only [recordSet, recordGet, if_neg hk]
      exact ih

/-- Assigning one key leaves every other key's value unchanged. -/
theorem recordGet_recordSet_other (k k' : Str) (v : α) (hne : k' ≠ k) :
    ∀ h : List (Str × α), recordGet (recordSet h k v) k' = recordGet h k' := by
  have hkk : ¬(k = k') := fun hh => hne hh.symm
  intro h
  induction h with
  | nil => simp [recordSet, recordGet, hkk]
  | cons kv rest ih =>
    rcases kv with ⟨k0, v0⟩
    by_cases hk : k0 = k
    · subst hk
      simp [recordSet, recordGet, hkk]
    · simp only [recordSet, if_neg hk, recordGet]
      by_cases hk' : k0 = k'
      · simp [hk']
      · simp only [if_neg hk']
        exact ih

/-! ### NotFound error response (C4) -/

/-- An empty router (no routes, no children, no middleware). -/
def nfRouter : Router := .mk "".data [] [] ⟨[]⟩ ⟨[]⟩

/-- A fresh context for `GET /missing` (response as `responseFactory`
creates it: status -1, no headers, no data). -/
def nfCtx : Ctx :=
  { req := { method := .GET, path := "/missing".data, ip := none },
    res := { status := -1, headers := [], data := .null },
    params := [] }

/-- C4: handling `GET /missing` on a router with no routes yields a
response with status 404 and body
`{error: "Route not found: GET /missing", statusCode: 404}` — route
resolution throws the HTTP-tagged 404 `NotFoundError`, and the `handle`
failure boundary translates it into that error response (with no
`_internal` diagnostics, even outside production, because the failure is
HTTP-tagged). -/
theorem claim_C4_not_found :
    (Router.handle nfRouter true nfCtx).1.res.status = 404 ∧
    (Router.handle nfRouter true nfCtx).1.res.data
      = .val (.obj [("error".data, .s "Route not found: GET /missing".data),
          ("statusCode".data, .i 404)]) := by
  exact ⟨rfl, rfl⟩

/-! ### Default status assignment (C6) -/

/-- C6: when the body stage (including the failure boundary) left the
response status at the sentinel -1, the `.then` callback assigns the
method-specific default from `DefaultStatus` before the post-pipelines
run (the context handed to the post phase already carries it); the table
is GET→200, POST→201, PUT/PATCH/DELETE/OPTIONS/HEAD→204; end to end, a
request whose body stage succeeds with no ancestors, no explicit status,
and an empty own post-pipeline is answered with the default status. -/
theorem claim_C6_default_status (r : Router) (isDev : Bool) (c : Ctx) :
    ((r.bodyPhase isDev c).1.res.status = -1 →
      (Router.defaultStatusStep (r.bodyPhase isDev c).1).res.status
        = DefaultStatus (r.bodyPhase isDev c).1.req.method) ∧
    ((r.bodyPhase isDev c).1.res.status ≠ -1 →
      Router.defaultStatusStep (r.bodyPhase isDev c).1 = (r.bodyPhase isDev c).1) ∧
    (∀ (c2 : Ctx) (t1 : List Str) (d : RData),
      r.bodyPhase isDev c = (c2, t1, .inl (d, [])) →
      c2.res.status = -1 →
      r.postPipelineOf = ⟨[]⟩ →
      (r.handle isDev c).1.res.status = DefaultStatus c2.req.method) ∧
    (DefaultStatus .GET = 200 ∧ DefaultStatus .POST = 201 ∧
     DefaultStatus .PUT = 204 ∧ DefaultStatus .PATCH = 204 ∧
     DefaultStatus .DELETE = 204 ∧ DefaultStatus .OPTIONS = 204 ∧
     DefaultStatus .HEAD = 204) := by
  refine ⟨?_, ?_, ?_, by decide, by decide, by decide, by decide, by decide,
    by decide, by decide⟩
  · intro hst
    simp [Router.defaultStatusStep, hst]
  · intro hst
    simp [Router.defaultStatusStep, hst]
  · intro c2 t1 d hbody hst hpost
    simp only [Router.handle, hbody]
    simp only [Router.thenPhase, runPostPipelines]
    simp only [Router.finallyPhase, hpost, Pipeline.handle, runStages,
      List.length_nil]
    simp [Router.defaultStatusStep, hst]

/-- Route for the C6 witness: a GET handler returning data and setting no
status. -/
def c6Route : Route :=
  { method := .GET, path := .str "/x".data,
    handle := fun c => (c, .ok (.val (.obj [("message".data, .s "ok".data)]))),
    status := none, headers := none }

/-- Router for the C6 witness. -/
def c6Router : Router := .mk "".data [c6Route] [] ⟨[]⟩ ⟨[]⟩

/-- Context for the C6 witness: `GET /x`, fresh response. -/
def c6Ctx : Ctx :=
  { req := { method := .GET, path := "/x".data, ip := none },
    res := { status := -1, headers := [], data := .null },
    params := [] }

/-- C6 witness: a GET handler that returns a value without setting a
status is answered with status 200 = DefaultStatus GET. -/
theorem claim_C6_witness :
    (Router.handle c6Router true c6Ctx).1.res.status = 200 := by
  have h := (claim_C6_default_status c6Router true c6Ctx).2.2.1
    ((c6Router.bodyPhase true c6Ctx).1) ((c6Router.bodyPhase true c6Ctx).2.1)
    (.val (.obj [("message".data, .s "ok".data)])) (by rfl) (by rfl) (by rfl)
  rw [h]
  rfl

/-! ### Post-pipeline guarantees (C3) -/

/-- C3 amended: when the body stage succeeds (including the case where a
parent pre-pipeline short-circuited), `handle` runs each ancestor's
post-pipeline in order and then this router's own post-pipeline; but when
the body stage fails — the failure boundary caught an error — the `.then`
callback receives the catch's error body rather than a `HandleResult`,
finds no `parents` field, and skips every ancestor post-pipeline; only
this router's own post-pipeline (the `.finally` callback) runs
unconditionally. -/
theorem claim_C3_post_pipelines (r : Router) (isDev : Bool) (c : Ctx) :
    (∀ (c1 : Ctx) (t1 : List Str) (e : Err),
      r._handle c = (c1, t1, .error e) →
      (r.handle isDev c).2.1
        = t1 ++ (r.postPipelineOf.handle
            (Router.defaultStatusStep (Router.catchStep isDev c1 e).1)).2.1) ∧
    (∀ (c1 : Ctx) (t1 : List Str) (d : RData) (parents : List Router),
      r._handle c = (c1, t1, .ok (d, parents)) →
      (r.handle isDev c).2.1
        = t1 ++ (runPostPipelines parents (Router.defaultStatusStep c1)).2.1
            ++ (r.postPipelineOf.handle
                (runPostPipelines parents (Router.defaultStatusStep c1)).1).2.1) := by
  constructor
  · intro c1 t1 e hh
    simp only [Router.handle, Router.bodyPhase, hh]
    rcases hcs : Router.catchStep isDev c1 e with ⟨c2, d⟩
    simp only [Router.thenPhase]
    rcases hfin : r.postPipelineOf.handle (Router.defaultStatusStep c2)
      with ⟨c5, t3, res3⟩
    simp only [Router.finallyPhase, hfin]
    cases res3 with
    | ok b => simp [hcs, hfin]
    | error e2 => simp [hcs, hfin]
  · intro c1 t1 d parents hh
    simp only [Router.handle, Router.bodyPhase, hh]
    simp only [Router.thenPhase]
    rcases hpp : runPostPipelines parents (Router.defaultStatusStep c1)
      with ⟨c4, t2, res2⟩
    rcases hfin : r.postPipelineOf.handle c4 with ⟨c5, t3, res3⟩
    cases res2 with
    | ok u =>
      cases u
      simp only [Router.finallyPhase, hfin]
      cases res3 with
      | ok b => simp
      | error e2 => simp
    | error e =>
      simp only [Router.finallyPhase, hfin]
      cases res3 with
      | ok b => simp
      | error e2 => simp

/-- Route for the C3 counterexample: its handler throws an untagged
failure. -/
def cx3Route : Route :=
  { method := .GET, path := .str "/x".data,
    handle := fun c => (c, .error (.internal "Error".data "boom".data [])),
    status := none, headers := none }

/-- Post-pipeline stage of the middle (ancestor) router: records its
execution by setting the header `X-ChildPost`. -/
def cx3Probe : Mw Ctx :=
  ⟨"childpost".data, fun c =>
    .next { c with res := { c.res with
      headers := recordSet c.res.headers "X-ChildPost".data "1".data } } id⟩

/-- Grandchild router owning the throwing route. -/
def cx3Grandchild : Router := .mk "/g".data [cx3Route] [] ⟨[]⟩ ⟨[]⟩

/-- Child router (an ancestor of the matched route) whose post-pipeline
holds the probe stage. -/
def cx3Child : Router := .mk "/c".data [] [cx3Grandchild] ⟨[]⟩ ⟨[cx3Probe]⟩

/-- Root router on which `handle` is invoked. -/
def cx3Root : Router := .mk "".data [] [cx3Child] ⟨[]⟩ ⟨[]⟩

/-- Context for the C3 counterexample: `GET /c/g/x`. -/
def cx3Ctx : Ctx :=
  { req := { method := .GET, path := "/c/g/x".data, ip := none },
    res := { status := -1, headers := [], data := .null },
    params := [] }

/-- C3 counterexample: the route resolves on the grandchild with ancestor
chain [root, child], the handler throws, and the ancestor child's
post-pipeline does NOT run — the executed-stage trace is empty and the
probe header is absent — contradicting the claim that after a failed body
stage each ancestor's post-pipeline still runs. -/
theorem claim_C3_counterexample :
    (Router.lookupPath .GET "/c/g/x".data cx3Root []).map (fun res => res.parents)
      = some [cx3Root, cx3Child] ∧
    cx3Child.postPipelineOf.handlers.map Mw.name = ["childpost".data] ∧
    (Router.handle cx3Root false cx3Ctx).1.res.status = 500 ∧
    (Router.handle cx3Root false cx3Ctx).2.1 = [] ∧
    recordGet (Router.handle cx3Root false cx3Ctx).1.res.headers
      "X-ChildPost".data = none := by
  exact ⟨rfl, rfl, rfl, rfl, rfl⟩

/-- Route for the C3 witness: a successful handler. -/
def w3Route : Route :=
  { method := .GET, path := .str "/x".data,
    handle := fun c => (c, .ok (.val (.obj [("message".data, .s "ok".data)]))),
    status := none, headers := none }

/-- Grandchild router of the C3 witness tree. -/
def w3Grandchild : Router := .mk "/g".data [w3Route] [] ⟨[]⟩ ⟨[]⟩

/-- Child router of the C3 witness tree (probe post-pipeline). -/
def w3Child : Router := .mk "/c".data [] [w3Grandchild] ⟨[]⟩ ⟨[cx3Probe]⟩

/-- Root router of the C3 witness tree. -/
def w3Root : Router := .mk "".data [] [w3Child] ⟨[]⟩ ⟨[]⟩

/-- Context for the C3 witness. -/
def w3Ctx : Ctx :=
  { req := { method := .GET, path := "/c/g/x".data, ip := none },
    res := { status := -1, headers := [], data := .null },
    params := [] }

/-- C3 witness: the amended theorem's success clause on a concrete tree —
the ancestor's post-pipeline stage runs (the trace is exactly the probe
stage). -/
theorem claim_C3_witness :
    (Router.handle w3Root false w3Ctx).2.1 = ["childpost".data] := by
  have h := (claim_C3_post_pipelines w3Root false w3Ctx).2
    ((w3Root._handle w3Ctx).1) []
    (.val (.obj [("message".data, .s "ok".data)])) [w3Root, w3Child] (by rfl)
  rw [h]
  rfl

end Choco

namespace Choco

/-! ### CORS middleware (C5) -/

/-- C5 amended: for an `OPTIONS` request the CORS stage writes the
configured headers, sets status 204, and returns without calling its
continuation, so no later stage of the same pipeline executes — the
pipeline's completion flag is false exactly when CORS is not the last
stage (only then does the router skip dispatching the route handler; with
CORS as the last pre-pipeline stage the pipeline reports complete and the
route handler can still be invoked, see the counterexample).  For
non-OPTIONS methods the stage writes the configured headers and calls the
continuation.  Configured settings produce exactly their documented
response headers. -/
theorem claim_C5_cors (s : CorsSettings) (c : Ctx) :
    (c.req.method = .OPTIONS →
      (corsMiddleware s).handler c
        = .stop { c with res := { c.res with
            headers := corsHeaders s c.res.headers, status := 204 } }) ∧
    (c.req.method ≠ .OPTIONS →
      (corsMiddleware s).handler c
        = .next { c with res := { c.res with
            headers := corsHeaders s c.res.headers } } id) ∧
    (∀ (xs ys : List (Mw Ctx)) (c0 cin : Ctx) (F : Ctx → Ctx),
      callsAll xs c0 = some (cin, F) →
      cin.req.method = .OPTIONS →
      Pipeline.handle ⟨xs ++ corsMiddleware s :: ys⟩ c0
        = (F { cin with res := { cin.res with
              headers := corsHeaders s cin.res.headers, status := 204 } },
           xs.map Mw.name ++ ["cors".data], .ok ys.isEmpty)) ∧
    (∀ (h : List (Str × Str)) (o : Str) (ms ah eh : List Str) (n : Int),
      s = ⟨some o, some ms, some ah, some eh, true, some n⟩ → o ≠ [] → n ≠ 0 →
      recordGet (corsHeaders s h) "Access-Control-Allow-Origin".data = some o ∧
      recordGet (corsHeaders s h) "Access-Control-Allow-Methods".data
        = some (joinCommaSpace ms) ∧
      recordGet (corsHeaders s h) "Access-Control-Allow-Headers".data
        = some (joinCommaSpace ah) ∧
      recordGet (corsHeaders s h) "Access-Control-Expose-Headers".data
        = some (joinCommaSpace eh) ∧
      recordGet (corsHeaders s h) "Access-Control-Allow-Credentials".data
        = some "true".data ∧
      recordGet (corsHeaders s h) "Access-Control-Max-Age".data
        = some (intStr n)) := by
  refine ⟨?_, ?_, ?_, ?_⟩
  · intro hopt
    simp [corsMiddleware, hopt]
  · intro hopt
    simp [corsMiddleware, hopt]
  · intro xs ys c0 cin F hca hopt
    have hm : (corsMiddleware s).handler cin
        = .stop { cin with res := { cin.res with
            headers := corsHeaders s cin.res.headers, status := 204 } } := by
      simp [corsMiddleware, hopt]
    exact handle_stop_middle ⟨xs ++ corsMiddleware s :: ys⟩ c0 xs ys
      (corsMiddleware s) cin _ F rfl hca hm
  · intro h o ms ah eh n hs ho hn
    subst hs
    refine ⟨?_, ?_, ?_, ?_, ?_, ?_⟩ <;>
      simp +decide [corsHeaders, ho, hn, recordGet_recordSet_self,
        recordGet_recordSet_other]

/-- CORS settings of the C5 counterexample and witness. -/
def cx5Settings : CorsSettings :=
  { origin := some "*".data, methods := none, allowedHeaders := none,
    exposedHeaders := none, credentials := false, maxAge := none }

/-- An `OPTIONS` route whose handler returns a marker body. -/
def cx5Route : Route :=
  { method := .OPTIONS, path := .str "/".data,
    handle := fun c => (c, .ok (.val (.obj [("message".data, .s "handled".data)]))),
    status := none, headers := none }

/-- Router whose pre-pipeline consists of the CORS stage alone (exactly
what `withCors` produces on a fresh app). -/
def cx5Router : Router :=
  .mk "".data [cx5Route] [] ⟨[corsMiddleware cx5Settings]⟩ ⟨[]⟩

/-- Context of the C5 counterexample: `OPTIONS /`. -/
def cx5Ctx : Ctx :=
  { req := { method := .OPTIONS, path := "/".data, ip := none },
    res := { status := -1, headers := [], data := .null },
    params := [] }

/-- C5 counterexample: with CORS as the last (only) pre-pipeline stage,
an `OPTIONS` request short-circuits the CORS stage, yet the pipeline
reports complete, the router dispatches, and the route handler IS invoked
— its return value ends up in the response body — contradicting the
claim that the route handler is never invoked. -/
theorem claim_C5_counterexample :
    (cx5Router.pipelineOf.handle cx5Ctx).2.2 = .ok true ∧
    (Router.handle cx5Router true cx5Ctx).1.res.data
      = .val (.obj [("message".data, .s "handled".data)]) ∧
    (Router.handle cx5Router true cx5Ctx).1.res.status = 204 := by
  exact ⟨rfl, rfl, rfl⟩

/-- A pipeline stage after the CORS stage, for the C5 witness. -/
def cx5After : Mw Ctx := ⟨"after".data, fun c => .next c id⟩

/-- C5 witness: the amended theorem's pipeline clause on a concrete
two-stage pipeline — on `OPTIONS`, the stage after CORS does not run and
the pipeline reports incomplete. -/
theorem claim_C5_witness :
    Pipeline.handle ⟨[corsMiddleware cx5Settings, cx5After]⟩ cx5Ctx
      = ({ cx5Ctx with res := { cx5Ctx.res with
            headers := corsHeaders cx5Settings cx5Ctx.res.headers,
            status := 204 } },
         ["cors".data], .ok false) := by
  have h := (claim_C5_cors cx5Settings cx5Ctx).2.2.1 [] [cx5After]
    cx5Ctx cx5Ctx id rfl rfl
  simpa using h

/-! ### Rate-limit middleware (C8) -/

/-- C8: the client key is the request address with fallback "127.0.0.1";
at or above the configured maximum the middleware returns without calling
the continuation — through the configured rejection callback when present
and by setting status 429 otherwise — leaving the hit table unchanged;
below the maximum it increments the key's counter by one, appends the
quota headers exactly when configured, and calls the continuation. -/
theorem claim_C8_rate_limit (s : RateLimitSettings)
    (hits : List (Str × Nat)) (c : Ctx) :
    (c.req.ip = none → rlKey c = "127.0.0.1".data) ∧
    (∀ cb, (((recordGet hits (rlKey c)).getD 0 : Nat) : Int) ≥ s.max →
      s.ratelimitCallback = some cb →
      rateLimitStep s hits c = (hits, .stop (cb c).1)) ∧
    ((((recordGet hits (rlKey c)).getD 0 : Nat) : Int) ≥ s.max →
      s.ratelimitCallback = none →
      rateLimitStep s hits c
        = (hits, .stop { c with res := { c.res with status := 429 } })) ∧
    ((((recordGet hits (rlKey c)).getD 0 : Nat) : Int) < s.max →
      (rateLimitStep s hits c).1
          = recordSet hits (rlKey c) ((recordGet hits (rlKey c)).getD 0 + 1) ∧
      recordGet (rateLimitStep s hits c).1 (rlKey c)
          = some ((recordGet hits (rlKey c)).getD 0 + 1) ∧
      (s.appendHeaders = true →
        (rateLimitStep s hits c).2
          = .next { c with res := { c.res with headers :=
              (recordSet
                (recordSet c.res.headers "X-RateLimit-Limit".data (intStr s.max))
                "X-RateLimit-Remaining".data
                (intStr (s.max - ((recordGet hits (rlKey c)).getD 0 : Nat) - 1))) } }
            id) ∧
      (s.appendHeaders = false →
        (rateLimitStep s hits c).2 = .next c id)) := by
  refine ⟨?_, ?_, ?_, ?_⟩
  · intro hip
    simp [rlKey, hip]
  · intro cb hge hcb
    simp [rateLimitStep, if_pos hge, hcb]
  · intro hge hcb
    simp [rateLimitStep, if_pos hge, hcb]
  · intro hlt
    have hnot : ¬ ((((recordGet hits (rlKey c)).getD 0 : Nat) : Int) ≥ s.max) :=
      not_le.mpr hlt
    refine ⟨?_, ?_, ?_, ?_⟩
    · simp [rateLimitStep, if_neg hnot]
    · simp [rateLimitStep, if_neg hnot, recordGet_recordSet_self]
    · intro hap
      simp [rateLimitStep, if_neg hnot, hap]
    · intro hap
      simp [rateLimitStep, if_neg hnot, hap]

/-- Rate-limit settings of the C8 witness (`max: 2`, headers on, no
callback). -/
def w8Settings : RateLimitSettings :=
  { max := 2, duration := 999, ratelimitCallback := none, appendHeaders := true }

/-- Context of the C8 witness: a request from address 1.2.3.4. -/
def w8Ctx : Ctx :=
  { req := { method := .GET, path := "/test".data, ip := some "1.2.3.4".data },
    res := { status := -1, headers := [], data := .null },
    params := [] }

/-- C8 witness: at the maximum (2 hits recorded, max 2) the middleware
sets 429 and does not call the continuation, leaving the table unchanged;
below the maximum the counter advances to 1. -/
theorem claim_C8_witness :
    rateLimitStep w8Settings [("1.2.3.4".data, 2)] w8Ctx
      = ([("1.2.3.4".data, 2)],
         .stop { w8Ctx with res := { w8Ctx.res with status := 429 } }) ∧
    recordGet (rateLimitStep w8Settings [] w8Ctx).1 (rlKey w8Ctx) = some 1 :=
  ⟨(claim_C8_rate_limit w8Settings [("1.2.3.4".data, 2)] w8Ctx).2.2.1
      (by decide) rfl,
   ((claim_C8_rate_limit w8Settings [] w8Ctx).2.2.2 (by decide)).2.1⟩

end Choco
